import Mathlib

/-!
Shallow embedding of the wgatools MAF/PAF core (src/parser/maf.rs,
src/parser/paf.rs, src/tools/index.rs) and proofs about the frozen claims.

Modelling conventions:
* Rust u64 values are modelled as Nat.  Every u64 subtraction that can
  underflow (and hence panic under debug semantics, or produce a wrapped
  value that immediately triggers a slice panic) is guarded: the embedded
  operation returns none (for Option-valued operations) on that input.
* Rust String values holding gapped sequences are modelled as List Char
  (the sequences are ASCII, so byte slicing and char slicing coincide).
* Fallible operations return Option or Except; a Rust panic is modelled
  either as none or, for the parser where the distinction matters, with a
  dedicated ParseOutcome.panic constructor.
-/

/-- Strand of an aligned row, as in parser/common.rs (Positive or Negative). -/
inductive Strand : Type
  | Positive : Strand
  | Negative : Strand
deriving DecidableEq, Repr

/-- One MAF s-line: mode character, sequence name, start, aligned (ungapped)
size, strand, full sequence size and the gapped sequence, mirroring struct
MAFSLine in parser/maf.rs. -/
structure MAFSLine : Type where
  mode : Char
  name : String
  start : Nat
  align_size : Nat
  strand : Strand
  size : Nat
  seq : List Char
deriving DecidableEq, Repr

/-- A MAF alignment block: a score and the list of s-lines, mirroring struct
MAFRecord in parser/maf.rs. -/
structure MAFRecord : Type where
  score : Nat
  slines : List MAFSLine
deriving DecidableEq, Repr

/-- Worker loop of MAFSLine.get_col_coord: walks the sequence with the current
column index i and the count flag of non-gap characters seen so far, returning
the column index of the (pos+1)-th non-gap character, and the initial value 0
when fewer non-gap characters exist (the Rust loop leaves col_coord at 0). -/
def getColCoordGo : List Char → Nat → Nat → Nat → Nat
  | [], _, _, _ => 0
  | c :: rest, i, flag, pos =>
    if c = '-' then getColCoordGo rest (i + 1) flag pos
    else if flag + 1 = pos + 1 then i
    else getColCoordGo rest (i + 1) (flag + 1) pos

/-- MAFSLine.get_col_coord from parser/maf.rs: maps an ungapped offset pos to
the gapped column index of the (pos+1)-th non-gap character of seq, or 0 when
there is no such character. -/
def get_col_coord (seq : List Char) (pos : Nat) : Nat :=
  getColCoordGo seq 0 0 pos

/-- Rust string slicing seq[a..b]: defined when a <= b <= length, a panic
(modelled as none) otherwise. -/
def strSlice (s : List Char) (a b : Nat) : Option (List Char) :=
  if a ≤ b ∧ b ≤ s.length then some ((s.drop a).take (b - a)) else none

/-- Number of gap characters in a sequence, as new_seq.matches('-').count()
in slice_block. -/
def gapCount (s : List Char) : Nat := s.count '-'

/-- Number of non-gap characters in a sequence (used to state the data-model
invariant that it equals align_size). -/
def nonGapCount (s : List Char) : Nat := (s.filter (fun c => c ≠ '-')).length

/-- Loop over the rows of slice_block: row i is replaced by the already-sliced
target row when i = ord, and otherwise gets start := start + cut_start_index,
its sequence sliced at the same column range, and align_size := range length
minus the gap characters of the sliced substring, exactly as the for-loop of
MAFRecord.slice_block.  A Rust slice panic on any row yields none. -/
def sliceOthers : List MAFSLine → Nat → Nat → MAFSLine → Nat → Nat → Nat →
    Option (List MAFSLine)
  | [], _, _, _, _, _, _ => some []
  | s :: rest, i, ord, tgt, start_coord, end_coord, cut_start_index =>
    match sliceOthers rest (i + 1) ord tgt start_coord end_coord cut_start_index with
    | none => none
    | some tail =>
      if i = ord then some (tgt :: tail)
      else
        match strSlice s.seq start_coord end_coord with
        | none => none
        | some new_seq =>
          some ({ s with
                  start := s.start + cut_start_index,
                  align_size := (end_coord - start_coord) - gapCount new_seq,
                  seq := new_seq } :: tail)

/-- MAFRecord.slice_block from parser/maf.rs.  The target row at index ord has
its start set to cut_start, align_size to cut_end - cut_start, and its
sequence sliced at the column range obtained from get_col_coord; every other
row is rewritten by sliceOthers.  The u64 subtractions cut_start - start,
cut_end - start and cut_end - cut_start are guarded (underflow panics), as is
each string slice (panics when start_coord > end_coord or the range exceeds a
row's sequence). -/
def MAFRecord.slice_block (r : MAFRecord) (cut_start cut_end : Nat) (ord : Nat) :
    Option MAFRecord :=
  match r.slines.get? ord with
  | none => none
  | some sline =>
    if cut_start < sline.start then none
    else if cut_end < sline.start then none
    else if cut_end < cut_start then none
    else
      let cut_start_index := cut_start - sline.start
      let cut_end_index := cut_end - sline.start
      let start_coord := get_col_coord sline.seq cut_start_index
      let end_coord := get_col_coord sline.seq cut_end_index
      match strSlice sline.seq start_coord end_coord with
      | none => none
      | some newseq =>
        let tgt : MAFSLine :=
          { sline with start := cut_start, align_size := cut_end - cut_start, seq := newseq }
        match sliceOthers r.slines 0 ord tgt start_coord end_coord cut_start_index with
        | none => none
        | some rows => some { r with slines := rows }

/-- MAFRecord.query_strand: the strand of s-line 1 (an index panic when the
record has fewer than two rows is modelled as none). -/
def MAFRecord.query_strand (r : MAFRecord) : Option Strand :=
  (r.slines.get? 1).map (fun q => q.strand)

/-- MAFRecord.query_start from parser/maf.rs: start on the positive strand,
size - start - align_size on the negative strand (underflow guarded). -/
def MAFRecord.query_start (r : MAFRecord) : Option Nat :=
  match r.slines.get? 1 with
  | none => none
  | some q =>
    match q.strand with
    | Strand.Positive => some q.start
    | Strand.Negative =>
      if q.start + q.align_size ≤ q.size then some (q.size - q.start - q.align_size)
      else none

/-- MAFRecord.query_end from parser/maf.rs: start + align_size on the positive
strand, size - start on the negative strand (underflow guarded). -/
def MAFRecord.query_end (r : MAFRecord) : Option Nat :=
  match r.slines.get? 1 with
  | none => none
  | some q =>
    match q.strand with
    | Strand.Positive => some (q.start + q.align_size)
    | Strand.Negative =>
      if q.start ≤ q.size then some (q.size - q.start) else none

/-- MAFRecord.target_strand from parser/maf.rs: the strand stored on s-line 0. -/
def MAFRecord.target_strand (r : MAFRecord) : Option Strand :=
  (r.slines.get? 0).map (fun t => t.strand)

/-- PAF record, mirroring struct PafRecord in parser/paf.rs. -/
structure PafRecord : Type where
  query_name : String
  query_length : Nat
  query_start : Nat
  query_end : Nat
  strand : Strand
  target_name : String
  target_length : Nat
  target_start : Nat
  target_end : Nat
  «matches» : Nat
  block_length : Nat
  mapq : Nat
  tags : List String
deriving DecidableEq, Repr

/-- PafRecord.target_strand from parser/paf.rs: always Positive. -/
def PafRecord.target_strand (_ : PafRecord) : Strand := Strand.Positive

/-- Numeric value of a digit run (base-10 fold). -/
def digitsVal (l : List Char) : Nat :=
  l.foldl (fun acc c => acc * 10 + (c.toNat - 48)) 0

/-- Modelled from the spec: the natord crate used by the MAFRecord comparator
is an external dependency whose source is not in the repository; the spec
describes it as natural (numeric-aware) string order.  Runs of digits in both
strings are compared by numeric value, other characters by character code.
The fuel argument only bounds the recursion depth; each step consumes at
least one character of each list, so the fuel supplied by natord_compare is
never exhausted. -/
def natCompareFuel : Nat → List Char → List Char → Ordering
  | 0, _, _ => Ordering.eq
  | _ + 1, [], [] => Ordering.eq
  | _ + 1, [], _ :: _ => Ordering.lt
  | _ + 1, _ :: _, [] => Ordering.gt
  | fuel + 1, a :: as, b :: bs =>
    if a.isDigit ∧ b.isDigit then
      let ra := (a :: as).takeWhile Char.isDigit
      let rb := (b :: bs).takeWhile Char.isDigit
      if digitsVal ra < digitsVal rb then Ordering.lt
      else if digitsVal rb < digitsVal ra then Ordering.gt
      else natCompareFuel fuel ((a :: as).dropWhile Char.isDigit) ((b :: bs).dropWhile Char.isDigit)
    else
      match compare a b with
      | Ordering.eq => natCompareFuel fuel as bs
      | o => o

/-- Modelled from the spec: natord.compare on strings, natural numeric-aware
string order. -/
def natord_compare (a b : String) : Ordering :=
  natCompareFuel (a.data.length + b.data.length + 1) a.data b.data

/-- The Ord implementation for MAFRecord in parser/maf.rs: equal target names
compare by target start, different names by natural order.  Reading the target
rows panics when a record has no s-lines (modelled as none). -/
def MAFRecord.cmp (a b : MAFRecord) : Option Ordering :=
  match a.slines.get? 0, b.slines.get? 0 with
  | some t1, some t2 =>
    some (if t1.name = t2.name then compare t1.start t2.start
          else natord_compare t1.name t2.name)
  | _, _ => none

/-- Formula used by claim C3, stated from the spec words for comparison with
the code: the number of a row's own non-gap characters occurring before the
given column. -/
def specNonGapBefore (seq : List Char) (col : Nat) : Nat :=
  nonGapCount (seq.take col)

/-- The gapped sequence of the spec fixture rows (three leading gaps and two
internal gaps around ten bases). -/
def mafFixtureSeq : List Char :=
  ['-', '-', '-', 'A', 'G', 'C', '-', 'C', 'A', 'T', '-', 'C', 'A', 'T', 'T']

/-- Target row of the spec fixture: s ref 100 10 + 100000. -/
def mafFixtureRef : MAFSLine :=
  ⟨'s', "ref", 100, 10, Strand.Positive, 100000, mafFixtureSeq⟩

/-- Query row of the spec fixture: s contig 0 10 + 10. -/
def mafFixtureContig : MAFSLine :=
  ⟨'s', "contig", 0, 10, Strand.Positive, 10, mafFixtureSeq⟩

/-- The spec fixture block with its two rows. -/
def mafFixtureBlock : MAFRecord := ⟨255, [mafFixtureRef, mafFixtureContig]⟩

/-- Block used to settle claim C3: the non-target row has a gap in a column
where the target row has a base, so the two start formulas diverge. -/
def cexBlockC3 : MAFRecord :=
  ⟨255, [⟨'s', "t", 10, 3, Strand.Positive, 100, ['A', 'B', 'C']⟩,
         ⟨'s', "q", 5, 2, Strand.Positive, 50, ['-', 'B', 'C']⟩]⟩

/-- Negative-strand query record used for claim C2. -/
def exRecordC2 : MAFRecord :=
  ⟨255, [⟨'s', "t", 0, 4, Strand.Positive, 30, ['A', 'C', 'G', 'T']⟩,
         ⟨'s', "q", 3, 4, Strand.Negative, 20, ['A', 'C', 'G', 'T']⟩]⟩

/-- MAF record whose target row is stored with a negative strand, used for
claim C4. -/
def cexRecordC4 : MAFRecord :=
  ⟨255, [⟨'s', "t", 0, 2, Strand.Negative, 100, ['A', 'C']⟩]⟩

/-- Record on target chr2 with start 50, used for claim C9. -/
def exRecordChr2 : MAFRecord :=
  ⟨255, [⟨'s', "chr2", 50, 2, Strand.Positive, 100, ['A', 'C']⟩]⟩

/-- Record on target chr10 with start 1, used for claim C9. -/
def exRecordChr10 : MAFRecord :=
  ⟨255, [⟨'s', "chr10", 1, 2, Strand.Positive, 100, ['A', 'C']⟩]⟩

/-- Typed parse error mirroring ParseError as used in parser/maf.rs (the
errors module itself is not among the provided sources; the only constructor
exercised by parser/maf.rs is new_parse_int_err). -/
inductive ParseError : Type
  | parse_int_err (s : String)
deriving DecidableEq, Repr

/-- Outcome of running code that can return a value, return a typed error, or
panic; Rust panics are modelled explicitly so that claims about panics versus
typed errors can be stated. -/
inductive ParseOutcome (α : Type) : Type
  | ok (val : α)
  | err (e : ParseError)
  | panic (msg : String)
deriving DecidableEq, Repr

/-- Rust str.parse for u64: an optional leading plus sign followed by at
least one ASCII digit, with the value bounded by 2 to the 64. -/
def parseU64 (s : String) : Option Nat :=
  let ds := match s.data with
            | '+' :: rest => rest
            | l => l
  if ds.isEmpty then none
  else if ds.all Char.isDigit then
    if digitsVal ds < 18446744073709551616 then some (digitsVal ds) else none
  else none

/-- str2u64 from parser/maf.rs: wraps integer parsing into a typed error. -/
def str2u64 (s : String) : Except ParseError Nat :=
  match parseU64 s with
  | some n => Except.ok n
  | none => Except.error (ParseError.parse_int_err s)

/-- Modelled from the spec: Strand.from on strings lives in parser/common.rs,
which is not among the provided sources; the spec gives the strand symbols
plus and minus.  Any other symbol aborts. -/
def strandFromStr (s : String) : ParseOutcome Strand :=
  if s = "+" then ParseOutcome.ok Strand.Positive
  else if s = "-" then ParseOutcome.ok Strand.Negative
  else ParseOutcome.panic "unknown strand symbol"

/-- Worker of whitespace splitting over the character list with the
characters of the current field accumulated in reverse. -/
def splitWSChars : List Char → List Char → List String
  | [], acc => if acc.isEmpty then [] else [String.mk acc.reverse]
  | c :: rest, acc =>
    if c = ' ' ∨ c = '\t' then
      if acc.isEmpty then splitWSChars rest []
      else String.mk acc.reverse :: splitWSChars rest []
    else splitWSChars rest (c :: acc)

/-- Whitespace splitting as str.split_whitespace: maximal runs of
non-whitespace characters, with spaces and tabs as separators. -/
def splitWS (s : String) : List String :=
  splitWSChars s.data []

/-- Rust line.starts_with of a single character: true exactly when the first
character of the line is that character. -/
def startsWithChar (l : String) (c : Char) : Bool :=
  match l.data with
  | [] => false
  | c0 :: _ => c0 = c

/-- Field-list worker of parse_sline from parser/maf.rs: reads the seven
whitespace-separated fields of an s-line.  A missing field panics with the
corresponding message, an eighth field panics, a non-numeric coordinate is a
typed error produced by str2u64, and the mode character is the first
character of the first field. -/
def parseFields : List String → ParseOutcome MAFSLine
  | [] => ParseOutcome.panic "s-line mode is missing"
  | f0 :: rest0 =>
    match f0.data with
    | [] => ParseOutcome.panic "called Option unwrap on a None value"
    | mode :: _ =>
      match rest0 with
      | [] => ParseOutcome.panic "s-line name is missing"
      | name :: rest1 =>
        match rest1 with
        | [] => ParseOutcome.panic "s-line start is missing"
        | f2 :: rest2 =>
          match str2u64 f2 with
          | Except.error e => ParseOutcome.err e
          | Except.ok start =>
            match rest2 with
            | [] => ParseOutcome.panic "s-line align_size is missing"
            | f3 :: rest3 =>
              match str2u64 f3 with
              | Except.error e => ParseOutcome.err e
              | Except.ok align_size =>
                match rest3 with
                | [] => ParseOutcome.panic "s-line strand is missing"
                | f4 :: rest4 =>
                  match strandFromStr f4 with
                  | ParseOutcome.err e => ParseOutcome.err e
                  | ParseOutcome.panic m => ParseOutcome.panic m
                  | ParseOutcome.ok strand =>
                    match rest4 with
                    | [] => ParseOutcome.panic "s-line size is missing"
                    | f5 :: rest5 =>
                      match str2u64 f5 with
                      | Except.error e => ParseOutcome.err e
                      | Except.ok size =>
                        match rest5 with
                        | [] => ParseOutcome.panic "s-line seq is missing"
                        | f6 :: rest6 =>
                          match rest6 with
                          | [] =>
                            ParseOutcome.ok ⟨mode, name, start, align_size, strand, size, f6.data⟩
                          | _ :: _ => ParseOutcome.panic "s-line has more than 8 fields"

/-- parse_sline from parser/maf.rs: split the line on whitespace and read the
fields. -/
def parse_sline (line : String) : ParseOutcome MAFSLine :=
  parseFields (splitWS line)

/-- sline_from_string from parser/maf.rs simply forwards to parse_sline. -/
def sline_from_string (value : String) : ParseOutcome MAFSLine :=
  parse_sline value

/-- Inner loop of the next method of MAFRecords: keep consuming lines that
start with the letter s, appending parsed s-lines to the record under
construction; a typed parse error becomes the returned item (the partial
record is abandoned), and a line not starting with s or the end of input
terminates the record.  Returns the item and the unconsumed lines. -/
def readSlines : List String → MAFRecord → ParseOutcome MAFRecord × List String
  | [], record => (ParseOutcome.ok record, [])
  | l :: rest, record =>
    if startsWithChar l 's' then
      match sline_from_string l with
      | ParseOutcome.ok sline => readSlines rest ⟨record.score, record.slines ++ [sline]⟩
      | ParseOutcome.err e => (ParseOutcome.err e, rest)
      | ParseOutcome.panic m => (ParseOutcome.panic m, rest)
    else (ParseOutcome.ok record, rest)

/-- One call of the next method of MAFRecords on the remaining input lines:
lines that do not start with the letter s are skipped, the first s-line and
the following s-lines form one record (score 255); returns none at end of
input, and otherwise the produced item with the unconsumed lines. -/
def mafNext : List String → Option (ParseOutcome MAFRecord × List String)
  | [] => none
  | l :: rest =>
    if startsWithChar l 's' then
      match sline_from_string l with
      | ParseOutcome.err e => some (ParseOutcome.err e, rest)
      | ParseOutcome.panic m => some (ParseOutcome.panic m, rest)
      | ParseOutcome.ok sline => some (readSlines rest ⟨255, [sline]⟩)
    else mafNext rest

/-- Fuel-bounded iteration of mafNext.  Each produced item consumes at least
one input line, so the fuel supplied by mafItems is never exhausted.  A panic
aborts the whole iteration (the Rust process dies), so it is the last item. -/
def mafItemsFuel : Nat → List String → List (ParseOutcome MAFRecord)
  | 0, _ => []
  | fuel + 1, ls =>
    match mafNext ls with
    | none => []
    | some (ParseOutcome.panic m, _) => [ParseOutcome.panic m]
    | some (item, rest) => item :: mafItemsFuel fuel rest

/-- The full sequence of items produced by the MAF record iterator on the
given input lines (the header line is consumed before iteration starts and is
not part of the input here). -/
def mafItems (ls : List String) : List (ParseOutcome MAFRecord) :=
  mafItemsFuel (ls.length + 1) ls

/-- Error type as used by build_index in tools/index.rs (the errors module is
not among the provided sources; the variants are the ones constructed there,
with anyhow messages modelled as strings). -/
inductive WGAError : Type
  | DuplicateName (name : String)
  | Other (msg : String)
  | EmptyRecord
deriving DecidableEq, Repr

/-- One interval of the MAF index, mirroring struct IvP of tools/index.rs;
the end field is written end_ because end is reserved. -/
structure IvP : Type where
  start : Nat
  end_ : Nat
  strand : Strand
  offset : Nat
deriving DecidableEq, Repr

/-- Per-name entry of the MAF index, mirroring struct MafIndexItem of
tools/index.rs. -/
structure MafIndexItem : Type where
  ivls : List IvP
  size : Nat
  ord : Nat
deriving DecidableEq, Repr

/-- The MAF index mapping names to entries; the Rust HashMap is modelled as
an association list. -/
abbrev MafIndex : Type := List (String × MafIndexItem)

/-- HashMap lookup on the association-list model. -/
def idxLookup : MafIndex → String → Option MafIndexItem
  | [], _ => none
  | (n, it) :: rest, name => if n = name then some it else idxLookup rest name

/-- HashMap get_mut on the entry of the given name followed by pushing an
interval onto its list. -/
def idxPush (idx : MafIndex) (name : String) (iv : IvP) : MafIndex :=
  idx.map (fun p => if p.1 = name then (p.1, ⟨p.2.ivls ++ [iv], p.2.size, p.2.ord⟩) else p)

/-- Row loop of build_index from tools/index.rs over one record's s-lines: a
name repeated inside the block (tracked by name_vec) is a DuplicateName
error; a fresh name is inserted with this row's ordinal; a known name whose
stored ordinal differs from this row's ordinal is the ordering error; then
the interval start .. start + align_size with the block offset is pushed onto
the name's entry. -/
def buildRows : List MAFSLine → Nat → List String → MafIndex → Nat →
    Except WGAError MafIndex
  | [], _, _, idx, _ => Except.ok idx
  | sline :: rest, ord, name_vec, idx, offset =>
    if sline.name ∈ name_vec then Except.error (WGAError.DuplicateName sline.name)
    else
      let ivp : IvP := ⟨sline.start, sline.start + sline.align_size, sline.strand, offset⟩
      if (idxLookup idx sline.name).isNone then
        let idx2 := (sline.name, (⟨[], sline.size, ord⟩ : MafIndexItem)) :: idx
        buildRows rest (ord + 1) (name_vec ++ [sline.name]) (idxPush idx2 sline.name ivp) offset
      else
        match idxLookup idx sline.name with
        | none => Except.error (WGAError.Other "not excepted")
        | some item =>
          if item.ord ≠ ord then
            Except.error (WGAError.Other "There is a different order between Records!")
          else
            buildRows rest (ord + 1) (name_vec ++ [sline.name]) (idxPush idx sline.name ivp)
              offset

/-- Block loop of build_index: process the records in order and abort on the
first error.  The stream byte offset recorded before each block is abstracted
to the block counter, which none of the claims inspect. -/
def buildLoop : List MAFRecord → Nat → MafIndex → Except WGAError MafIndex
  | [], _, idx => Except.ok idx
  | r :: rest, offset, idx =>
    match buildRows r.slines 0 [] idx offset with
    | Except.error e => Except.error e
    | Except.ok idx2 => buildLoop rest (offset + 1) idx2

/-- build_index from tools/index.rs over the parsed blocks: run the loop and
return the mapping only when it is non-empty, an empty mapping being the
EmptyRecord error. -/
def build_index (blocks : List MAFRecord) : Except WGAError MafIndex :=
  match buildLoop blocks 0 [] with
  | Except.error e => Except.error e
  | Except.ok idx => if idx.isEmpty then Except.error WGAError.EmptyRecord else Except.ok idx

/-- The artifact serialized by build_index: serde_json::to_writer runs after
the loop and only on the non-empty success path, so a failing build persists
nothing. -/
def writtenIndex (blocks : List MAFRecord) : Option MafIndex :=
  match build_index blocks with
  | Except.ok idx => some idx
  | Except.error _ => none

/-- Ordinal stored in the index for a name, when present. -/
def idxOrd (idx : MafIndex) (n : String) : Option Nat :=
  (idxLookup idx n).map (fun it => it.ord)

/-- Occurrence test: the name appears at the given row ordinal in the list of
s-lines, counting ordinals from the given first one. -/
def occursRowsB : List MAFSLine → Nat → String → Nat → Bool
  | [], _, _, _ => false
  | s :: rest, ord, n, o =>
    if s.name = n ∧ ord = o then true else occursRowsB rest (ord + 1) n o

/-- Occurrence test across blocks: the name appears at the given row ordinal
in some block. -/
def occursBlocksB : List MAFRecord → String → Nat → Bool
  | [], _, _ => false
  | r :: rest, n, o =>
    if occursRowsB r.slines 0 n o then true else occursBlocksB rest n o

/-- Short s-line used by the index fixtures. -/
def idxRow (n : String) : MAFSLine := ⟨'s', n, 0, 2, Strand.Positive, 10, ['A', 'C']⟩

/-- Source whose name B sits at ordinal 1 in the first block and ordinal 0 in
the second, with no in-block duplicates (claim C6). -/
def blocksC6 : List MAFRecord :=
  [⟨255, [idxRow "A", idxRow "B"]⟩, ⟨255, [idxRow "B", idxRow "A"]⟩]

/-- Source whose second block repeats the name B on both rows but whose row 0
already triggers the ordering inconsistency first (claim C7). -/
def cexBlocksC7 : List MAFRecord :=
  [⟨255, [idxRow "A", idxRow "B"]⟩, ⟨255, [idxRow "B", idxRow "B"]⟩]

/-- A single block carrying the same name on both rows (claim C7 witness). -/
def dupBlockC7 : MAFRecord := ⟨255, [idxRow "t", idxRow "t"]⟩

/-! ## Helper lemmas -/

theorem nonGapCount_cons (c : Char) (rest : List Char) :
    nonGapCount (c :: rest) = (if c = '-' then 0 else 1) + nonGapCount rest := by
  by_cases hc : c = '-' <;> simp [nonGapCount, List.filter_cons, hc] <;> omega

theorem getColCoordGo_eq_zero :
    ∀ (seq : List Char) (i flag pos : Nat),
      flag + nonGapCount seq ≤ pos → getColCoordGo seq i flag pos = 0
  | [], _, _, _, _ => rfl
  | c :: rest, i, flag, pos, h => by
    rw [nonGapCount_cons] at h
    by_cases hc : c = '-'
    · rw [if_pos hc] at h
      simp only [getColCoordGo, if_pos hc]
      exact getColCoordGo_eq_zero rest (i + 1) flag pos (by omega)
    · rw [if_neg hc] at h
      simp only [getColCoordGo, if_neg hc]
      have hne : ¬ (flag + 1 = pos + 1) := by omega
      rw [if_neg hne]
      exact getColCoordGo_eq_zero rest (i + 1) (flag + 1) pos (by omega)

theorem get_col_coord_eq_zero (seq : List Char) (pos : Nat)
    (h : nonGapCount seq ≤ pos) : get_col_coord seq pos = 0 :=
  getColCoordGo_eq_zero seq 0 0 pos (by omega)

theorem strSlice_zero_zero (s : List Char) : strSlice s 0 0 = some [] := by
  simp [strSlice]

theorem sliceOthers_get :
    ∀ (rows : List MAFSLine) (i ord : Nat) (tgt : MAFSLine) (sc ec csi : Nat)
      (out : List MAFSLine),
      sliceOthers rows i ord tgt sc ec csi = some out →
      out.length = rows.length ∧
      ∀ k s, rows.get? k = some s →
        (i + k = ord → out.get? k = some tgt) ∧
        (i + k ≠ ord → ∃ ns, strSlice s.seq sc ec = some ns ∧
          out.get? k = some { s with start := s.start + csi, align_size := (ec - sc) - gapCount ns, seq := ns })
  | [], i, ord, tgt, sc, ec, csi, out, h => by
    simp only [sliceOthers, Option.some.injEq] at h
    subst h
    refine ⟨rfl, ?_⟩
    intro k s hk
    simp at hk
  | s0 :: rest, i, ord, tgt, sc, ec, csi, out, h => by
    simp only [sliceOthers] at h
    cases htail : sliceOthers rest (i + 1) ord tgt sc ec csi with
    | none => rw [htail] at h; exact absurd h (by simp)
    | some tail =>
      rw [htail] at h
      dsimp only at h
      have ih := sliceOthers_get rest (i + 1) ord tgt sc ec csi tail htail
      by_cases hi : i = ord
      · rw [if_pos hi] at h
        simp only [Option.some.injEq] at h
        subst h
        refine ⟨by simp [ih.1], ?_⟩
        intro k s hk
        cases k with
        | zero =>
          constructor
          · intro _; rfl
          · intro hne; exact absurd (by omega : i + 0 = ord) hne
        | succ k2 =>
          simp only [List.get?] at hk ⊢
          have hkk := ih.2 k2 s hk
          constructor
          · intro hko; exact hkk.1 (by omega)
          · intro hko; exact hkk.2 (by omega)
      · rw [if_neg hi] at h
        cases hsl : strSlice s0.seq sc ec with
        | none => rw [hsl] at h; exact absurd h (by simp)
        | some ns0 =>
          rw [hsl] at h
          simp only [Option.some.injEq] at h
          subst h
          refine ⟨by simp [ih.1], ?_⟩
          intro k s hk
          cases k with
          | zero =>
            simp only [List.get?, Option.some.injEq] at hk
            subst hk
            constructor
            · intro hko; exact absurd (by omega : i = ord) hi
            · intro _; exact ⟨ns0, hsl, rfl⟩
          | succ k2 =>
            simp only [List.get?] at hk ⊢
            have hkk := ih.2 k2 s hk
            constructor
            · intro hko; exact hkk.1 (by omega)
            · intro hko; exact hkk.2 (by omega)

theorem sliceOthers_total :
    ∀ (rows : List MAFSLine) (i ord : Nat) (tgt : MAFSLine) (csi : Nat),
      ∃ out, sliceOthers rows i ord tgt 0 0 csi = some out
  | [], _, _, _, _ => ⟨[], rfl⟩
  | s0 :: rest, i, ord, tgt, csi => by
    obtain ⟨tail, htail⟩ := sliceOthers_total rest (i + 1) ord tgt csi
    by_cases hi : i = ord
    · exact ⟨tgt :: tail, by simp only [sliceOthers, htail, if_pos hi]⟩
    · simp only [sliceOthers, htail, if_neg hi, strSlice_zero_zero]
      exact ⟨_, rfl⟩

/-! ## Claim theorems: slicing and accessors -/

/-- Claim C1 (code bug): slicing the spec fixture block to its full original
target range [100, 110) is not the identity: the end column lookup
get_col_coord asks for an eleventh non-gap character that does not exist and
returns 0, so the string slice range [3, 0) panics (modelled as none) instead
of returning the block unchanged. -/
theorem slice_block_full_range_not_identity :
    MAFRecord.slice_block mafFixtureBlock 100 110 0 = none ∧
    get_col_coord mafFixtureSeq 10 = 0 ∧
    get_col_coord mafFixtureSeq 0 = 3 ∧
    mafFixtureRef.start + mafFixtureRef.align_size = 110 := by
  refine ⟨rfl, rfl, rfl, rfl⟩

/-- Claim C2: for a MAF-backed record with a query row, the forward-strand
query coordinates are start and start + align_size on the positive strand,
and size - start - align_size and size - start on the negative strand. -/
theorem maf_query_coordinates (r : MAFRecord) (q : MAFSLine)
    (hq : r.slines.get? 1 = some q) :
    (q.strand = Strand.Positive →
      MAFRecord.query_start r = some q.start ∧
      MAFRecord.query_end r = some (q.start + q.align_size)) ∧
    (q.strand = Strand.Negative → q.start + q.align_size ≤ q.size →
      MAFRecord.query_start r = some (q.size - q.start - q.align_size) ∧
      MAFRecord.query_end r = some (q.size - q.start)) := by
  have hq2 : r.slines[1]? = some q := by rw [← List.get?_eq_getElem?]; exact hq
  constructor
  · intro hp
    simp [MAFRecord.query_start, MAFRecord.query_end, hq2, hp]
  · intro hn hle
    have h2 : q.start ≤ q.size := by omega
    simp [MAFRecord.query_start, MAFRecord.query_end, hq2, hn, hle, h2]

/-- Witness for C2 on a concrete negative-strand record. -/
theorem maf_query_coordinates_witness :
    MAFRecord.query_start exRecordC2 = some 13 ∧
    MAFRecord.query_end exRecordC2 = some 17 :=
  (maf_query_coordinates exRecordC2
    ⟨'s', "q", 3, 4, Strand.Negative, 20, ['A', 'C', 'G', 'T']⟩ rfl).2 rfl (by decide)

/-- Claim C3 counterexample: in cexBlockC3 the non-target row has a gap in the
first sliced-away column where the target row has a base, so its new start is
6 = 5 + 1 (old start plus the target-row ungapped offset), while the claim
formula old start + own non-gap characters before the column range gives
5 + 0 = 5. -/
theorem slice_block_other_start_cex :
    (MAFRecord.slice_block cexBlockC3 11 12 0).bind
      (fun r2 => (r2.slines.get? 1).map MAFSLine.start) = some 6 ∧
    5 + specNonGapBefore ['-', 'B', 'C'] (get_col_coord ['A', 'B', 'C'] (11 - 10)) = 5 ∧
    (6 : Nat) ≠ 5 := by
  refine ⟨rfl, rfl, by decide⟩

/-- Claim C3 amended: on a successful slice, every row other than the target
row gets start = old start + (cut_start - target start), the target row's
ungapped offset of the cut (not the row's own non-gap count), and align_size =
(column range length) - (gap characters inside the sliced substring), which is
the part of the claim that holds as stated. -/
theorem slice_block_other_rows (r : MAFRecord) (cut_start cut_end ord : Nat)
    (r2 : MAFRecord) (t : MAFSLine)
    (ht : r.slines.get? ord = some t)
    (h : MAFRecord.slice_block r cut_start cut_end ord = some r2) :
    ∀ k s s2, k ≠ ord → r.slines.get? k = some s → r2.slines.get? k = some s2 →
      s2.start = s.start + (cut_start - t.start) ∧
      s2.align_size =
        (get_col_coord t.seq (cut_end - t.start) - get_col_coord t.seq (cut_start - t.start))
          - gapCount s2.seq := by
  intro k s s2 hk hks hks2
  simp only [MAFRecord.slice_block, ht] at h
  split at h
  · simp at h
  split at h
  · simp at h
  split at h
  · simp at h
  split at h
  · simp at h
  split at h
  · simp at h
  rename_i newseq hsl rows hrows
  have hr2 : r2.slines = rows := by cases h; rfl
  have H := sliceOthers_get r.slines 0 ord _ _ _ _ rows hrows
  obtain ⟨ns, hns, hget⟩ := (H.2 k s hks).2 (by omega)
  rw [hr2, hget] at hks2
  cases hks2
  exact ⟨rfl, rfl⟩

/-- Witness for the amended C3 at the concrete block cexBlockC3. -/
theorem slice_block_other_rows_witness :
    (6 : Nat) = 5 + (11 - 10) ∧
    (1 : Nat) =
      (get_col_coord ['A', 'B', 'C'] (12 - 10) - get_col_coord ['A', 'B', 'C'] (11 - 10))
        - gapCount ['B'] :=
  slice_block_other_rows cexBlockC3 11 12 0
    ⟨255, [⟨'s', "t", 11, 1, Strand.Positive, 100, ['B']⟩,
           ⟨'s', "q", 6, 1, Strand.Positive, 50, ['B']⟩]⟩
    ⟨'s', "t", 10, 3, Strand.Positive, 100, ['A', 'B', 'C']⟩ rfl rfl 1
    ⟨'s', "q", 5, 2, Strand.Positive, 50, ['-', 'B', 'C']⟩
    ⟨'s', "q", 6, 1, Strand.Positive, 50, ['B']⟩ (by decide) rfl rfl

/-- Claim C4 counterexample: a MAF record whose target row is stored with a
negative strand reports that stored strand, not Positive. -/
theorem target_strand_maf_negative :
    MAFRecord.target_strand cexRecordC4 = some Strand.Negative ∧
    some Strand.Negative ≠ some Strand.Positive :=
  ⟨rfl, by decide⟩

/-- Claim C4 amended: PAF-backed records always report Positive as target
strand; MAF-backed records report the strand stored on s-line 0. -/
theorem target_strand_by_format :
    (∀ p : PafRecord, p.target_strand = Strand.Positive) ∧
    (∀ (r : MAFRecord) (t : MAFSLine), r.slines.get? 0 = some t →
      MAFRecord.target_strand r = some t.strand) := by
  constructor
  · intro p
    rfl
  · intro r t ht
    have ht2 : r.slines[0]? = some t := by rw [← List.get?_eq_getElem?]; exact ht
    simp [MAFRecord.target_strand, ht2]

/-- Witness for the amended C4 on concrete records of both formats. -/
theorem target_strand_by_format_witness :
    PafRecord.target_strand
      ⟨"q", 10, 0, 5, Strand.Negative, "t", 20, 2, 7, 5, 5, 255, []⟩ = Strand.Positive ∧
    MAFRecord.target_strand cexRecordC4 = some Strand.Negative :=
  ⟨target_strand_by_format.1 _,
   target_strand_by_format.2 cexRecordC4 ⟨'s', "t", 0, 2, Strand.Negative, 100, ['A', 'C']⟩ rfl⟩

/-- Claim C9: the MAFRecord comparator compares equal target names by target
start and different target names by natural order, and the record on chr2
start 50 sorts before the record on chr10 start 1. -/
theorem maf_record_cmp_spec (a b : MAFRecord) (t1 t2 : MAFSLine)
    (h1 : a.slines.get? 0 = some t1) (h2 : b.slines.get? 0 = some t2) :
    (t1.name = t2.name → MAFRecord.cmp a b = some (compare t1.start t2.start)) ∧
    (t1.name ≠ t2.name → MAFRecord.cmp a b = some (natord_compare t1.name t2.name)) ∧
    MAFRecord.cmp exRecordChr2 exRecordChr10 = some Ordering.lt := by
  have h1b : a.slines[0]? = some t1 := by rw [← List.get?_eq_getElem?]; exact h1
  have h2b : b.slines[0]? = some t2 := by rw [← List.get?_eq_getElem?]; exact h2
  refine ⟨?_, ?_, by decide⟩
  · intro he
    simp [MAFRecord.cmp, h1b, h2b, he]
  · intro hne
    simp [MAFRecord.cmp, h1b, h2b, hne]

/-- Witness for C9 at the two concrete chr2/chr10 records. -/
theorem maf_record_cmp_spec_witness :
    MAFRecord.cmp exRecordChr2 exRecordChr10 = some (natord_compare "chr2" "chr10") :=
  (maf_record_cmp_spec exRecordChr2 exRecordChr10
    ⟨'s', "chr2", 50, 2, Strand.Positive, 100, ['A', 'C']⟩
    ⟨'s', "chr10", 1, 2, Strand.Positive, 100, ['A', 'C']⟩ rfl rfl).2.1 (by decide)

/-- Claim C10: slice_block is partial.  When cut_start is below the target
row's start the u64 subtraction underflows (a panic, modelled none); when
cut_end reaches start + align_size the end column lookup returns its initial
value 0 because fewer non-gap characters exist, so the slice range becomes
[start_coord, 0): a panic when start_coord > 0, and otherwise an empty target
sequence in place of an error. -/
theorem slice_block_preconditions (r : MAFRecord) (s : MAFSLine)
    (cut_start cut_end ord : Nat) (hs : r.slines.get? ord = some s) :
    (cut_start < s.start → MAFRecord.slice_block r cut_start cut_end ord = none) ∧
    (s.start ≤ cut_start → nonGapCount s.seq = s.align_size →
      s.start + s.align_size ≤ cut_end →
      get_col_coord s.seq (cut_end - s.start) = 0 ∧
      (MAFRecord.slice_block r cut_start cut_end ord = none ∨
        ∃ r2, MAFRecord.slice_block r cut_start cut_end ord = some r2 ∧
          (r2.slines.get? ord).map MAFSLine.seq = some [])) := by
  constructor
  · intro hlt
    simp only [MAFRecord.slice_block, hs]
    rw [if_pos hlt]
  · intro hge hinv hend
    have hzero : get_col_coord s.seq (cut_end - s.start) = 0 :=
      get_col_coord_eq_zero _ _ (by omega)
    refine ⟨hzero, ?_⟩
    by_cases hlt : cut_end < cut_start
    · left
      simp only [MAFRecord.slice_block, hs]
      rw [if_neg (by omega), if_neg (by omega), if_pos hlt]
    · by_cases hsc : get_col_coord s.seq (cut_start - s.start) = 0
      · right
        obtain ⟨rows, hrows⟩ := sliceOthers_total r.slines 0 ord
          { s with start := cut_start, align_size := cut_end - cut_start, seq := [] }
          (cut_start - s.start)
        have heval : MAFRecord.slice_block r cut_start cut_end ord =
            some { r with slines := rows } := by
          simp only [MAFRecord.slice_block, hs]
          rw [if_neg (by omega), if_neg (by omega), if_neg hlt]
          rw [hzero, hsc, strSlice_zero_zero]
          dsimp only
          rw [hrows]
        refine ⟨{ r with slines := rows }, heval, ?_⟩
        have H := sliceOthers_get r.slines 0 ord _ _ _ _ rows hrows
        have hget := (H.2 ord s hs).1 (by omega)
        simp only [hget]
        rfl
      · left
        simp only [MAFRecord.slice_block, hs]
        rw [if_neg (by omega), if_neg (by omega), if_neg hlt]
        rw [hzero]
        have hnone : strSlice s.seq (get_col_coord s.seq (cut_start - s.start)) 0 = none := by
          simp only [strSlice]
          rw [if_neg (by omega)]
        rw [hnone]

/-- Witness for C10 at the spec fixture block with the full-range cut. -/
theorem slice_block_preconditions_witness :
    get_col_coord mafFixtureSeq (110 - 100) = 0 ∧
    (MAFRecord.slice_block mafFixtureBlock 100 110 0 = none ∨
      ∃ r2, MAFRecord.slice_block mafFixtureBlock 100 110 0 = some r2 ∧
        (r2.slines.get? 0).map MAFSLine.seq = some []) :=
  (slice_block_preconditions mafFixtureBlock mafFixtureRef 100 110 0 rfl).2
    (by decide) (by decide) (by decide)

/-! ## Claim theorems: the MAF record iterator -/

/-- Claim C5 counterexample: an s-line with missing fields (wrong field
count) makes the record iterator panic, aborting the iteration, instead of
yielding a typed error item. -/
theorem maf_wrong_field_count_panics :
    parse_sline "s ref 100" = ParseOutcome.panic "s-line align_size is missing" ∧
    mafItems ["s ref 100"] = [ParseOutcome.panic "s-line align_size is missing"] :=
  ⟨rfl, rfl⟩

/-- Claim C5 amended: an s-line whose start coordinate field is non-numeric
yields a typed error item for that record and iteration continues with the
remaining lines; a wrong field count (missing or extra fields) panics
instead, as the concrete eight-field line shows. -/
theorem maf_sline_error_recovery (l : String) (rest : List String) (f0 : String)
    (m : Char) (mrest : List Char) (name f2 f3 f4 f5 f6 : String) (e : ParseError)
    (hf : splitWS l = [f0, name, f2, f3, f4, f5, f6])
    (hmode : f0.data = m :: mrest)
    (hs : startsWithChar l 's' = true)
    (he : str2u64 f2 = Except.error e) :
    mafItems (l :: rest) = ParseOutcome.err e :: mafItems rest ∧
    mafItems ["s ref 100 10 + 100 ACGT extra"] =
      [ParseOutcome.panic "s-line has more than 8 fields"] := by
  have hp : parse_sline l = ParseOutcome.err e := by
    simp only [parse_sline, hf, parseFields, hmode, he]
  refine ⟨?_, rfl⟩
  simp only [mafItems, List.length_cons, mafItemsFuel, mafNext, hs, if_pos,
    sline_from_string, hp]

/-- Witness for the amended C5: a concrete non-numeric coordinate produces an
error item and the following block is still parsed. -/
theorem maf_sline_error_recovery_witness :
    mafItems ["s ref 1x0 10 + 100 ACGT", "", "s ref 5 2 + 100 AC", "s q 0 2 + 50 AC"] =
      ParseOutcome.err (ParseError.parse_int_err "1x0") ::
        mafItems ["", "s ref 5 2 + 100 AC", "s q 0 2 + 50 AC"] ∧
    mafItems ["s ref 100 10 + 100 ACGT extra"] =
      [ParseOutcome.panic "s-line has more than 8 fields"] :=
  maf_sline_error_recovery "s ref 1x0 10 + 100 ACGT"
    ["", "s ref 5 2 + 100 AC", "s q 0 2 + 50 AC"] "s" 's' [] "ref" "1x0" "10" "+" "100" "ACGT"
    (ParseError.parse_int_err "1x0") rfl rfl rfl rfl

/-! ## Helper lemmas for the index builder -/

theorem idxOrd_cons (a : String) (it : MafIndexItem) (idx : MafIndex) (m : String) :
    idxOrd ((a, it) :: idx) m = if a = m then some it.ord else idxOrd idx m := by
  by_cases h : a = m <;> simp [idxOrd, idxLookup, h]

theorem idxOrd_idxPush (idx : MafIndex) (n m : String) (iv : IvP) :
    idxOrd (idxPush idx n iv) m = idxOrd idx m := by
  induction idx with
  | nil => rfl
  | cons p rest ih =>
    obtain ⟨pn, pit⟩ := p
    simp only [idxPush, List.map_cons]
    by_cases h : pn = n
    · rw [if_pos h, idxOrd_cons, idxOrd_cons]
      by_cases h2 : pn = m
      · rw [if_pos h2, if_pos h2]
      · rw [if_neg h2, if_neg h2]
        exact ih
    · rw [if_neg h, idxOrd_cons, idxOrd_cons]
      by_cases h2 : pn = m
      · rw [if_pos h2, if_pos h2]
      · rw [if_neg h2, if_neg h2]
        exact ih

theorem buildRows_preserves_idxOrd :
    ∀ (slines : List MAFSLine) (ord : Nat) (nv : List String) (idx idx2 : MafIndex)
      (off : Nat) (m : String) (o : Nat),
      buildRows slines ord nv idx off = Except.ok idx2 →
      idxOrd idx m = some o → idxOrd idx2 m = some o
  | [], ord, nv, idx, idx2, off, m, o, h, hm => by
    simp only [buildRows, Except.ok.injEq] at h
    subst h
    exact hm
  | sline :: rest, ord, nv, idx, idx2, off, m, o, h, hm => by
    simp only [buildRows] at h
    by_cases hdup : sline.name ∈ nv
    · rw [if_pos hdup] at h
      simp at h
    rw [if_neg hdup] at h
    by_cases hfresh : (idxLookup idx sline.name).isNone = true
    · rw [if_pos hfresh] at h
      have hmn : sline.name ≠ m := by
        intro hh
        unfold idxOrd at hm
        cases hl : idxLookup idx m with
        | none => rw [hl] at hm; cases hm
        | some it => rw [hh, hl] at hfresh; simp at hfresh
      refine buildRows_preserves_idxOrd rest (ord + 1) _ _ idx2 off m o h ?_
      rw [idxOrd_idxPush, idxOrd_cons, if_neg hmn]
      exact hm
    · rw [if_neg hfresh] at h
      cases hl : idxLookup idx sline.name with
      | none => rw [hl] at h; simp at h
      | some item =>
        rw [hl] at h
        dsimp only at h
        by_cases hmis : item.ord ≠ ord
        · rw [if_pos hmis] at h; simp at h
        rw [if_neg hmis] at h
        refine buildRows_preserves_idxOrd rest (ord + 1) _ _ idx2 off m o h ?_
        rw [idxOrd_idxPush]
        exact hm

theorem buildRows_records_occurrence :
    ∀ (slines : List MAFSLine) (ord : Nat) (nv : List String) (idx idx2 : MafIndex)
      (off : Nat) (n : String) (o : Nat),
      buildRows slines ord nv idx off = Except.ok idx2 →
      occursRowsB slines ord n o = true →
      idxOrd idx2 n = some o
  | [], ord, nv, idx, idx2, off, n, o, h, hocc => by
    simp [occursRowsB] at hocc
  | sline :: rest, ord, nv, idx, idx2, off, n, o, h, hocc => by
    simp only [buildRows] at h
    simp only [occursRowsB] at hocc
    by_cases hdup : sline.name ∈ nv
    · rw [if_pos hdup] at h
      simp at h
    rw [if_neg hdup] at h
    by_cases hh : sline.name = n ∧ ord = o
    · by_cases hfresh : (idxLookup idx sline.name).isNone = true
      · rw [if_pos hfresh] at h
        refine buildRows_preserves_idxOrd rest (ord + 1) _ _ idx2 off n o h ?_
        rw [idxOrd_idxPush, idxOrd_cons, if_pos hh.1]
        rw [hh.2]
      · rw [if_neg hfresh] at h
        cases hl : idxLookup idx sline.name with
        | none => rw [hl] at h; simp at h
        | some item =>
          rw [hl] at h
          dsimp only at h
          by_cases hmis : item.ord ≠ ord
          · rw [if_pos hmis] at h; simp at h
          rw [if_neg hmis] at h
          refine buildRows_preserves_idxOrd rest (ord + 1) _ _ idx2 off n o h ?_
          rw [idxOrd_idxPush, ← hh.1]
          unfold idxOrd
          rw [hl]
          show some item.ord = some o
          have hio : item.ord = ord := by omega
          rw [hio, hh.2]
    · rw [if_neg hh] at hocc
      by_cases hfresh : (idxLookup idx sline.name).isNone = true
      · rw [if_pos hfresh] at h
        exact buildRows_records_occurrence rest (ord + 1) _ _ idx2 off n o h hocc
      · rw [if_neg hfresh] at h
        cases hl : idxLookup idx sline.name with
        | none => rw [hl] at h; simp at h
        | some item =>
          rw [hl] at h
          dsimp only at h
          by_cases hmis : item.ord ≠ ord
          · rw [if_pos hmis] at h; simp at h
          rw [if_neg hmis] at h
          exact buildRows_records_occurrence rest (ord + 1) _ _ idx2 off n o h hocc

theorem buildLoop_preserves_idxOrd :
    ∀ (blocks : List MAFRecord) (off : Nat) (idx idx2 : MafIndex) (m : String) (o : Nat),
      buildLoop blocks off idx = Except.ok idx2 →
      idxOrd idx m = some o → idxOrd idx2 m = some o
  | [], off, idx, idx2, m, o, h, hm => by
    simp only [buildLoop, Except.ok.injEq] at h
    subst h
    exact hm
  | r :: rest, off, idx, idx2, m, o, h, hm => by
    simp only [buildLoop] at h
    cases hr : buildRows r.slines 0 [] idx off with
    | error e => rw [hr] at h; simp at h
    | ok idxm =>
      rw [hr] at h
      exact buildLoop_preserves_idxOrd rest (off + 1) idxm idx2 m o h
        (buildRows_preserves_idxOrd r.slines 0 [] idx idxm off m o hr hm)

theorem buildLoop_records_occurrence :
    ∀ (blocks : List MAFRecord) (off : Nat) (idx idx2 : MafIndex) (n : String) (o : Nat),
      buildLoop blocks off idx = Except.ok idx2 →
      occursBlocksB blocks n o = true →
      idxOrd idx2 n = some o
  | [], off, idx, idx2, n, o, h, hocc => by
    simp [occursBlocksB] at hocc
  | r :: rest, off, idx, idx2, n, o, h, hocc => by
    simp only [buildLoop] at h
    simp only [occursBlocksB] at hocc
    cases hr : buildRows r.slines 0 [] idx off with
    | error e => rw [hr] at h; simp at h
    | ok idxm =>
      rw [hr] at h
      by_cases ho : occursRowsB r.slines 0 n o = true
      · exact buildLoop_preserves_idxOrd rest (off + 1) idxm idx2 n o h
          (buildRows_records_occurrence r.slines 0 [] idx idxm off n o hr ho)
      · rw [if_neg ho] at hocc
        exact buildLoop_records_occurrence rest (off + 1) idxm idx2 n o h hocc

theorem buildRows_error_is_order :
    ∀ (slines : List MAFSLine) (ord : Nat) (nv : List String) (idx : MafIndex)
      (off : Nat) (e : WGAError),
      (nv ++ slines.map (fun s => s.name)).Nodup →
      buildRows slines ord nv idx off = Except.error e →
      e = WGAError.Other "There is a different order between Records!"
  | [], _, _, _, _, _, _, h => by simp [buildRows] at h
  | sline :: rest, ord, nv, idx, off, e, hnd, h => by
    simp only [buildRows] at h
    have hnotin : sline.name ∉ nv := by
      intro hin
      have hdisj := (List.nodup_append.mp (by simpa using hnd)).2.2
      exact hdisj hin (by simp)
    have hnd2 : ((nv ++ [sline.name]) ++ rest.map (fun s => s.name)).Nodup := by
      rw [List.append_assoc]
      simpa using hnd
    rw [if_neg hnotin] at h
    by_cases hfresh : (idxLookup idx sline.name).isNone = true
    · rw [if_pos hfresh] at h
      exact buildRows_error_is_order rest (ord + 1) _ _ off e hnd2 h
    · rw [if_neg hfresh] at h
      cases hl : idxLookup idx sline.name with
      | none => rw [hl] at hfresh; simp at hfresh
      | some item =>
        rw [hl] at h
        dsimp only at h
        by_cases hmis : item.ord ≠ ord
        · rw [if_pos hmis] at h
          simp only [Except.error.injEq] at h
          exact h.symm
        · rw [if_neg hmis] at h
          exact buildRows_error_is_order rest (ord + 1) _ _ off e hnd2 h

theorem buildLoop_error_is_order :
    ∀ (blocks : List MAFRecord) (off : Nat) (idx : MafIndex) (e : WGAError),
      (∀ r ∈ blocks, (r.slines.map (fun s => s.name)).Nodup) →
      buildLoop blocks off idx = Except.error e →
      e = WGAError.Other "There is a different order between Records!"
  | [], _, _, _, _, h => by simp [buildLoop] at h
  | r :: rest, off, idx, e, hnd, h => by
    simp only [buildLoop] at h
    cases hr : buildRows r.slines 0 [] idx off with
    | error e2 =>
      rw [hr] at h
      simp only [Except.error.injEq] at h
      exact h ▸ buildRows_error_is_order r.slines 0 [] idx off e2
        (by simpa using hnd r (by simp)) hr
    | ok idxm =>
      rw [hr] at h
      exact buildLoop_error_is_order rest (off + 1) idxm e
        (fun r2 hr2 => hnd r2 (by simp [hr2])) h

theorem buildLoop_append (A B : List MAFRecord) :
    ∀ (off : Nat) (idx : MafIndex),
      buildLoop (A ++ B) off idx =
        match buildLoop A off idx with
        | Except.error e => Except.error e
        | Except.ok idx1 => buildLoop B (off + A.length) idx1 := by
  induction A with
  | nil => intro off idx; simp [buildLoop]
  | cons r rest ih =>
    intro off idx
    simp only [List.cons_append, buildLoop]
    cases hr : buildRows r.slines 0 [] idx off with
    | error e => rfl
    | ok idx2 =>
      dsimp only
      simp only [List.append_eq]
      rw [ih (off + 1) idx2]
      have harith : off + 1 + rest.length = off + (r :: rest).length := by
        simp only [List.length_cons]
        omega
      rw [harith]

theorem buildRows_prefix :
    ∀ (pre post : List MAFSLine) (ord : Nat) (nv : List String) (idx : MafIndex) (off : Nat),
      (nv ++ pre.map (fun s => s.name)).Nodup →
      (∀ k (hk : k < pre.length),
        idxOrd idx ((pre.get ⟨k, hk⟩).name) = none ∨
        idxOrd idx ((pre.get ⟨k, hk⟩).name) = some (ord + k)) →
      ∃ idx1, buildRows (pre ++ post) ord nv idx off =
        buildRows post (ord + pre.length) (nv ++ pre.map (fun s => s.name)) idx1 off
  | [], post, ord, nv, idx, off, _, _ => ⟨idx, by simp⟩
  | s :: pre2, post, ord, nv, idx, off, hnd, hord => by
    have hnotin : s.name ∉ nv := by
      intro hin
      have hdisj := (List.nodup_append.mp (by simpa using hnd)).2.2
      exact hdisj hin (by simp)
    have hnd2 : ((nv ++ [s.name]) ++ pre2.map (fun x => x.name)).Nodup := by
      rw [List.append_assoc]
      simpa using hnd
    have hsnp : s.name ∉ pre2.map (fun x => x.name) := by
      have hc := (List.nodup_append.mp (by simpa using hnd)).2.1
      exact (List.nodup_cons.mp hc).1
    have hne : ∀ k (hk : k < pre2.length), s.name ≠ (pre2.get ⟨k, hk⟩).name := by
      intro k hk he
      refine hsnp ?_
      rw [he]
      exact List.mem_map_of_mem (fun x => x.name) (pre2.get_mem k hk)
    have harith : (ord + 1) + pre2.length = ord + (s :: pre2).length := by
      simp only [List.length_cons]
      omega
    have hlist : (nv ++ [s.name]) ++ pre2.map (fun x => x.name) =
        nv ++ (s :: pre2).map (fun x => x.name) := by
      simp
    rcases hord 0 (by simp) with h0 | h0
    · have h0b : idxOrd idx s.name = none := by simpa using h0
      have hfresh : (idxLookup idx s.name).isNone = true := by
        unfold idxOrd at h0b
        cases hl : idxLookup idx s.name with
        | none => simp [hl]
        | some it => rw [hl] at h0b; simp at h0b
      have hord2 : ∀ k (hk : k < pre2.length),
          idxOrd (idxPush ((s.name, (⟨[], s.size, ord⟩ : MafIndexItem)) :: idx) s.name
              (⟨s.start, s.start + s.align_size, s.strand, off⟩ : IvP))
            ((pre2.get ⟨k, hk⟩).name) = none ∨
          idxOrd (idxPush ((s.name, (⟨[], s.size, ord⟩ : MafIndexItem)) :: idx) s.name
              (⟨s.start, s.start + s.align_size, s.strand, off⟩ : IvP))
            ((pre2.get ⟨k, hk⟩).name) = some ((ord + 1) + k) := by
        intro k hk
        rw [idxOrd_idxPush, idxOrd_cons, if_neg (hne k hk)]
        rcases hord (k + 1) (by simpa using Nat.succ_lt_succ hk) with hh | hh
        · left
          simpa using hh
        · right
          have heq2 : ord + (k + 1) = (ord + 1) + k := by omega
          rw [← heq2]
          simpa using hh
      obtain ⟨idx1, heq⟩ := buildRows_prefix pre2 post (ord + 1) (nv ++ [s.name])
        (idxPush ((s.name, (⟨[], s.size, ord⟩ : MafIndexItem)) :: idx) s.name
          (⟨s.start, s.start + s.align_size, s.strand, off⟩ : IvP)) off hnd2 hord2
      refine ⟨idx1, ?_⟩
      simp only [List.cons_append, buildRows]
      rw [if_neg hnotin, if_pos hfresh]
      simp only [List.append_eq]
      rw [heq, harith, hlist]
    · have h0b : idxOrd idx s.name = some ord := by simpa using h0
      have hitem : ∃ item, idxLookup idx s.name = some item ∧ item.ord = ord := by
        unfold idxOrd at h0b
        cases hl : idxLookup idx s.name with
        | none => rw [hl] at h0b; simp at h0b
        | some it =>
          rw [hl] at h0b
          refine ⟨it, rfl, ?_⟩
          have hb2 : some it.ord = some ord := h0b
          injection hb2
      obtain ⟨item, hl, hio⟩ := hitem
      have hfresh : ¬ ((idxLookup idx s.name).isNone = true) := by
        rw [hl]
        simp
      have hord2 : ∀ k (hk : k < pre2.length),
          idxOrd (idxPush idx s.name
              (⟨s.start, s.start + s.align_size, s.strand, off⟩ : IvP))
            ((pre2.get ⟨k, hk⟩).name) = none ∨
          idxOrd (idxPush idx s.name
              (⟨s.start, s.start + s.align_size, s.strand, off⟩ : IvP))
            ((pre2.get ⟨k, hk⟩).name) = some ((ord + 1) + k) := by
        intro k hk
        rw [idxOrd_idxPush]
        rcases hord (k + 1) (by simpa using Nat.succ_lt_succ hk) with hh | hh
        · left
          simpa using hh
        · right
          have heq2 : ord + (k + 1) = (ord + 1) + k := by omega
          rw [← heq2]
          simpa using hh
      obtain ⟨idx1, heq⟩ := buildRows_prefix pre2 post (ord + 1) (nv ++ [s.name])
        (idxPush idx s.name (⟨s.start, s.start + s.align_size, s.strand, off⟩ : IvP))
        off hnd2 hord2
      refine ⟨idx1, ?_⟩
      simp only [List.cons_append, buildRows]
      rw [if_neg hnotin, if_neg hfresh, hl]
      dsimp only
      rw [if_neg (by omega : ¬ item.ord ≠ ord)]
      simp only [List.append_eq]
      rw [heq, harith, hlist]

/-! ## Claim theorems: the index builder -/

/-- Claim C6: over a source obeying the one-row-per-sequence-per-block
invariant of the data model (no block repeats a name), a name appearing at
two different row ordinals makes the index build abort with the
ordering-inconsistency error, and no index is produced. -/
theorem build_index_inconsistent_order (blocks : List MAFRecord) (n : String) (o1 o2 : Nat)
    (hnodup : ∀ r ∈ blocks, (r.slines.map (fun s => s.name)).Nodup)
    (h1 : occursBlocksB blocks n o1 = true)
    (h2 : occursBlocksB blocks n o2 = true)
    (hne : o1 ≠ o2) :
    build_index blocks =
      Except.error (WGAError.Other "There is a different order between Records!") ∧
    writtenIndex blocks = none := by
  cases hbl : buildLoop blocks 0 [] with
  | ok idx2 =>
    have q1 := buildLoop_records_occurrence blocks 0 [] idx2 n o1 hbl h1
    have q2 := buildLoop_records_occurrence blocks 0 [] idx2 n o2 hbl h2
    rw [q1] at q2
    injection q2 with hq
    exact absurd hq hne
  | error e =>
    have he := buildLoop_error_is_order blocks 0 [] e hnodup hbl
    subst he
    constructor
    · simp [build_index, hbl]
    · simp [writtenIndex, build_index, hbl]

/-- Witness for C6 on the concrete two-block source blocksC6. -/
theorem build_index_inconsistent_order_witness :
    build_index blocksC6 =
      Except.error (WGAError.Other "There is a different order between Records!") ∧
    writtenIndex blocksC6 = none :=
  build_index_inconsistent_order blocksC6 "B" 1 0 (by decide) (by decide) (by decide)
    (by decide)

/-- Claim C7 counterexample: the second block of cexBlocksC7 carries the name
B on both of its rows, yet the build aborts with the ordering-inconsistency
error raised on that block's first row, not with a duplicate-name error. -/
theorem build_index_duplicate_preempted :
    cexBlocksC7.map (fun r => r.slines.map (fun s => s.name)) = [["A", "B"], ["B", "B"]] ∧
    build_index cexBlocksC7 =
      Except.error (WGAError.Other "There is a different order between Records!") :=
  ⟨rfl, rfl⟩

/-- Claim C7 amended: a block repeating a name aborts the build with the
duplicate-name error provided the builder reaches that block (the loop over
the preceding blocks succeeds) and none of the block's rows before the
repeated one trips the ordering check first; otherwise an earlier structural
error aborts the build instead, as the counterexample shows.  In every case
no index is produced. -/
theorem build_index_duplicate_in_block (A B : List MAFRecord) (r : MAFRecord)
    (pre post : List MAFSLine) (s : MAFSLine) (idx0 : MafIndex)
    (hr : r.slines = pre ++ s :: post)
    (hA : buildLoop A 0 [] = Except.ok idx0)
    (hnodup : (pre.map (fun x => x.name)).Nodup)
    (hord : ∀ k (hk : k < pre.length),
      idxOrd idx0 ((pre.get ⟨k, hk⟩).name) = none ∨
      idxOrd idx0 ((pre.get ⟨k, hk⟩).name) = some k)
    (hdup : s.name ∈ pre.map (fun x => x.name)) :
    build_index (A ++ r :: B) = Except.error (WGAError.DuplicateName s.name) ∧
    writtenIndex (A ++ r :: B) = none := by
  have hord0 : ∀ k (hk : k < pre.length),
      idxOrd idx0 ((pre.get ⟨k, hk⟩).name) = none ∨
      idxOrd idx0 ((pre.get ⟨k, hk⟩).name) = some (0 + k) := by
    intro k hk
    rcases hord k hk with hh | hh
    · exact Or.inl hh
    · right
      rw [Nat.zero_add]
      exact hh
  obtain ⟨idx1, heq⟩ := buildRows_prefix pre (s :: post) 0 [] idx0 A.length
    (by simpa using hnodup) hord0
  have hrow : buildRows r.slines 0 [] idx0 A.length =
      Except.error (WGAError.DuplicateName s.name) := by
    rw [hr, heq]
    simp only [buildRows]
    rw [if_pos (by simpa using hdup)]
  have hloop : buildLoop (A ++ r :: B) 0 [] =
      Except.error (WGAError.DuplicateName s.name) := by
    rw [buildLoop_append, hA]
    dsimp only
    simp only [Nat.zero_add, buildLoop]
    rw [hrow]
  constructor
  · simp [build_index, hloop]
  · simp [writtenIndex, build_index, hloop]

/-- Witness for the amended C7 on a single block with a repeated name. -/
theorem build_index_duplicate_in_block_witness :
    build_index [dupBlockC7] = Except.error (WGAError.DuplicateName "t") ∧
    writtenIndex [dupBlockC7] = none :=
  build_index_duplicate_in_block [] [] dupBlockC7 [idxRow "t"] [] (idxRow "t") []
    rfl rfl (by decide) (fun _ _ => Or.inl rfl) (by decide)

/-- Claim C8: the build over a source with no blocks is the EmptyRecord
error, and a failing build persists nothing: the serialized artifact exists
exactly when the whole pass succeeds. -/
theorem build_index_empty_and_no_partial :
    build_index [] = Except.error WGAError.EmptyRecord ∧
    (∀ (blocks : List MAFRecord) (e : WGAError),
      build_index blocks = Except.error e → writtenIndex blocks = none) ∧
    (∀ (blocks : List MAFRecord) (idx : MafIndex),
      writtenIndex blocks = some idx → build_index blocks = Except.ok idx) := by
  refine ⟨rfl, ?_, ?_⟩
  · intro blocks e h
    simp [writtenIndex, h]
  · intro blocks idx h
    unfold writtenIndex at h
    cases hb : build_index blocks with
    | ok i =>
      rw [hb] at h
      dsimp only at h
      injection h with hh
      rw [hh]
    | error e =>
      rw [hb] at h
      dsimp only at h
      cases h

/-- Witness for C8: the empty source fails and writes nothing. -/
theorem build_index_empty_and_no_partial_witness :
    writtenIndex [] = none :=
  build_index_empty_and_no_partial.2.1 [] WGAError.EmptyRecord
    build_index_empty_and_no_partial.1
